import Mathlib

/-!
Verification of the ccls indexer (`src/indexer.cc`) against its
natural-language specification.  The definitions below are a shallow
embedding of the code: pure helpers are translated directly, stateful
pieces (file staging, the declaration-identity cache, the entity maps)
become explicit state passing over association lists, and external
collaborators (clang, the VFS staleness cache, the USR hash) become
function-valued parameters.  Types that live in headers outside this
file (Range, Role values, Kind/SymbolKind enumerations) are modelled
from the spec, as marked.
-/

set_option maxHeartbeats 1000000

namespace Ccls

/-! ## Decimal printing and parsing

Models the `snprintf` / `strtol` / `strtoull` pairs used by the
pipe-delimited serializers (`reflect(JsonWriter/JsonReader, ...)`). -/

/-- The character of a decimal digit, as printed by `snprintf`. -/
def digitChar : Nat → Char
  | 0 => '0'
  | 1 => '1'
  | 2 => '2'
  | 3 => '3'
  | 4 => '4'
  | 5 => '5'
  | 6 => '6'
  | 7 => '7'
  | 8 => '8'
  | _ => '9'

/-- The value of a decimal digit character. -/
def charToDigit (c : Char) : Nat := c.toNat - 48

/-- Decimal rendering of a natural number, most significant digit first,
as `snprintf` with `%d` / `%" PRIu64 "` prints a non-negative value. -/
def natToChars (n : Nat) : List Char :=
  if _h : n < 10 then [digitChar n]
  else natToChars (n / 10) ++ [digitChar (n % 10)]
termination_by n
decreasing_by exact Nat.div_lt_self (by omega) (by omega)

/-- A digit run consumed left to right, as `strtol` consumes one. -/
def parseNatAux : Nat → List Char → Nat × List Char
  | acc, [] => (acc, [])
  | acc, c :: cs =>
    if c.isDigit then parseNatAux (acc * 10 + charToDigit c) cs else (acc, c :: cs)

/-- `strtoull`-style parse of a decimal run (no sign appears in the encoded
fields this is applied to). -/
def parseNat (cs : List Char) : Nat × List Char := parseNatAux 0 cs

/-- True when the list does not begin with a decimal digit (so a parse that
stopped here stops for good). -/
def headNotDigit : List Char → Bool
  | [] => true
  | c :: _ => !c.isDigit

/-- Decimal rendering of an `int`, as `snprintf` with `%d` prints it. -/
def intToChars (i : Int) : List Char :=
  if i < 0 then '-' :: natToChars i.natAbs else natToChars i.toNat

/-- `strtol`-style parse: an optional minus sign followed by a digit run. -/
def parseInt : List Char → Int × List Char
  | [] => (0, [])
  | c :: cs =>
    if c = '-' then ((-((parseNatAux 0 cs).1) : Int), (parseNatAux 0 cs).2)
    else (((parseNatAux 0 (c :: cs)).1 : Int), (parseNatAux 0 (c :: cs)).2)

/-! ## Location records (spec section 3)

Modelled from the spec: the `Position`/`Range` types and their textual
codec live in `position.hh`/`position.cc`, outside this file; the spec
only requires a bit-exact text codec for the `range` field, rendered
here as `line:column-line:column` in decimal. -/

/-- Modelled from the spec: a source position (line, column). -/
structure Pos where
  line : Nat
  column : Nat
deriving DecidableEq, Repr

/-- Modelled from the spec: a source range; the source's `end` field is
spelt `stop` because `end` is reserved in Lean. -/
structure Range where
  start : Pos
  stop : Pos
deriving DecidableEq, Repr

/-- Textual form of a range. -/
def rangeToChars (r : Range) : List Char :=
  natToChars r.start.line ++ ':' ::
    (natToChars r.start.column ++ '-' ::
      (natToChars r.stop.line ++ ':' :: natToChars r.stop.column))

/-- Drop an expected punctuation character (models advancing past the
separator found by `strchr`). -/
def expectChar (c : Char) : List Char → List Char
  | [] => []
  | x :: xs => if x = c then xs else x :: xs

/-- Textual parse of a range (`Range::fromString`), modelled from the spec. -/
def parseRange (cs : List Char) : Range × List Char :=
  let p1 := parseNat cs
  let p2 := parseNat (expectChar ':' p1.2)
  let p3 := parseNat (expectChar '-' p2.2)
  let p4 := parseNat (expectChar ':' p3.2)
  (⟨⟨p1.1, p2.1⟩, ⟨p3.1, p4.1⟩⟩, p4.2)

/-- Modelled from the spec/header: coarse storage kinds (spec 4.1); the
source's `Kind::Type` is spelt `TypeK` because `Type` is reserved in Lean. -/
inductive Kind
  | Invalid
  | File
  | Func
  | TypeK
  | Var
deriving DecidableEq, Repr

/-- Numeric value of a `Kind`, as `int(v.kind)` casts it. -/
def kindToNat : Kind → Nat
  | .Invalid => 0
  | .File => 1
  | .Func => 2
  | .TypeK => 3
  | .Var => 4

/-- `static_cast<Kind>` of a parsed integer. -/
def kindOfNat : Nat → Kind
  | 0 => .Invalid
  | 1 => .File
  | 2 => .Func
  | 3 => .TypeK
  | 4 => .Var
  | _ => .Invalid

/-- `SymbolRef = range + usr + kind + role` (spec section 3); the role
bitset is modelled as its numeric value. -/
structure SymbolRef where
  range : Range
  usr : Nat
  kind : Kind
  role : Nat
deriving DecidableEq, Repr

/-- `Use = range + role + local-file index` (spec section 3); `file_id`
is an `int` which defaults to -1, hence `Int`. -/
structure Use where
  range : Range
  role : Nat
  file_id : Int
deriving DecidableEq, Repr

/-- `DeclRef = Use + extent` (spec section 3). -/
structure DeclRef extends Use where
  extent : Range
deriving DecidableEq, Repr

/-! ## Textual serializers (`reflect(JsonWriter, ...)` / `reflect(JsonReader, ...)`) -/

/-- `reflect(JsonWriter &, SymbolRef &)`: `range|usr|kind|role`. -/
def encodeSymbolRef (v : SymbolRef) : List Char :=
  rangeToChars v.range ++ '|' ::
    (natToChars v.usr ++ '|' ::
      (natToChars (kindToNat v.kind) ++ '|' :: natToChars v.role))

/-- `reflect(JsonReader &, SymbolRef &)`. -/
def decodeSymbolRef (cs : List Char) : SymbolRef :=
  let p1 := parseRange cs
  let p2 := parseNat (expectChar '|' p1.2)
  let p3 := parseNat (expectChar '|' p2.2)
  let p4 := parseNat (expectChar '|' p3.2)
  ⟨p1.1, p2.1, kindOfNat p3.1, p4.1⟩

/-- `reflect(JsonWriter &, Use &)`: `range|role|file-id`. -/
def encodeUse (v : Use) : List Char :=
  rangeToChars v.range ++ '|' :: (natToChars v.role ++ '|' :: intToChars v.file_id)

/-- `reflect(JsonReader &, Use &)`. -/
def decodeUse (cs : List Char) : Use :=
  let p1 := parseRange cs
  let p2 := parseNat (expectChar '|' p1.2)
  let p3 := parseInt (expectChar '|' p2.2)
  ⟨p1.1, p2.1, p3.1⟩

/-- `reflect(JsonWriter &, DeclRef &)`: `range|extent|role|file-id`. -/
def encodeDeclRef (v : DeclRef) : List Char :=
  rangeToChars v.range ++ '|' ::
    (rangeToChars v.extent ++ '|' ::
      (natToChars v.role ++ '|' :: intToChars v.file_id))

/-- `reflect(JsonReader &, DeclRef &)`. -/
def decodeDeclRef (cs : List Char) : DeclRef :=
  let p1 := parseRange cs
  let p2 := parseRange (expectChar '|' p1.2)
  let p3 := parseNat (expectChar '|' p2.2)
  let p4 := parseInt (expectChar '|' p3.2)
  ⟨⟨p1.1, p3.1, p4.1⟩, p2.1⟩

/-! ## Binary serializers (`reflect(BinaryWriter, ...)` / `reflect(BinaryReader, ...)`)

Modelled from the spec: "an equivalent fixed-field binary form"; each
field is written little-endian at its declared width (line/column 2
bytes, usr 8 bytes, kind 1 byte, role 2 bytes, file-id 4 bytes two's
complement), in the field order of the `reflect` overloads in the
source. -/

/-- Fixed-width little-endian bytes of a natural number. -/
def natToBytes : Nat → Nat → List Nat
  | 0, _ => []
  | w + 1, n => n % 256 :: natToBytes w (n / 256)

/-- Read back a fixed-width little-endian natural number. -/
def bytesToNat : Nat → List Nat → Nat × List Nat
  | 0, l => (0, l)
  | _ + 1, [] => (0, [])
  | w + 1, b :: bs =>
    let p := bytesToNat w bs
    (b + 256 * p.1, p.2)

/-- Four two's-complement bytes of an `int`. -/
def intToBytes4 (i : Int) : List Nat := natToBytes 4 (i % 4294967296).toNat

/-- Read back a two's-complement `int` from four bytes. -/
def bytesToInt4 (l : List Nat) : Int × List Nat :=
  let p := bytesToNat 4 l
  ((if p.1 < 2147483648 then (p.1 : Int) else (p.1 : Int) - 4294967296), p.2)

/-- Binary form of a range: the four fields in order. -/
def rangeToBytes (r : Range) : List Nat :=
  natToBytes 2 r.start.line ++ natToBytes 2 r.start.column ++
    natToBytes 2 r.stop.line ++ natToBytes 2 r.stop.column

/-- Binary parse of a range. -/
def bytesToRange (l : List Nat) : Range × List Nat :=
  let p1 := bytesToNat 2 l
  let p2 := bytesToNat 2 p1.2
  let p3 := bytesToNat 2 p2.2
  let p4 := bytesToNat 2 p3.2
  (⟨⟨p1.1, p2.1⟩, ⟨p3.1, p4.1⟩⟩, p4.2)

/-- `reflect(BinaryWriter &, SymbolRef &)`: range, usr, kind, role. -/
def encodeSymbolRefBin (v : SymbolRef) : List Nat :=
  rangeToBytes v.range ++ natToBytes 8 v.usr ++
    natToBytes 1 (kindToNat v.kind) ++ natToBytes 2 v.role

/-- `reflect(BinaryReader &, SymbolRef &)`. -/
def decodeSymbolRefBin (l : List Nat) : SymbolRef × List Nat :=
  let p1 := bytesToRange l
  let p2 := bytesToNat 8 p1.2
  let p3 := bytesToNat 1 p2.2
  let p4 := bytesToNat 2 p3.2
  (⟨p1.1, p2.1, kindOfNat p3.1, p4.1⟩, p4.2)

/-- `reflect(BinaryWriter &, Use &)`: range, role, file-id. -/
def encodeUseBin (v : Use) : List Nat :=
  rangeToBytes v.range ++ natToBytes 2 v.role ++ intToBytes4 v.file_id

/-- `reflect(BinaryReader &, Use &)`. -/
def decodeUseBin (l : List Nat) : Use × List Nat :=
  let p1 := bytesToRange l
  let p2 := bytesToNat 2 p1.2
  let p3 := bytesToInt4 p2.2
  (⟨p1.1, p2.1, p3.1⟩, p3.2)

/-- `reflect(BinaryWriter &, DeclRef &)`: the `Use` base then the extent. -/
def encodeDeclRefBin (v : DeclRef) : List Nat :=
  encodeUseBin v.toUse ++ rangeToBytes v.extent

/-- `reflect(BinaryReader &, DeclRef &)`. -/
def decodeDeclRefBin (l : List Nat) : DeclRef × List Nat :=
  let p1 := decodeUseBin l
  let p2 := bytesToRange p1.2
  (⟨p1.1, p2.1⟩, p2.2)

/-- A position whose fields fit their declared 16-bit storage. -/
def validPos (p : Pos) : Prop := p.line < 65536 ∧ p.column < 65536

/-- A range whose positions fit their declared storage. -/
def validRange (r : Range) : Prop := validPos r.start ∧ validPos r.stop

/-- A `SymbolRef` whose fields fit their declared storage. -/
def validSymbolRef (v : SymbolRef) : Prop :=
  validRange v.range ∧ v.usr < 18446744073709551616 ∧ v.role < 65536

/-- A `Use` whose fields fit their declared storage. -/
def validUse (v : Use) : Prop :=
  validRange v.range ∧ v.role < 65536 ∧
    -2147483648 ≤ v.file_id ∧ v.file_id < 2147483648

/-- A `DeclRef` whose fields fit their declared storage. -/
def validDeclRef (v : DeclRef) : Prop := validUse v.toUse ∧ validRange v.extent

instance : DecidablePred validPos := fun _ => by unfold validPos; infer_instance
instance : DecidablePred validRange := fun _ => by unfold validRange; infer_instance
instance : DecidablePred validSymbolRef := fun _ => by unfold validSymbolRef; infer_instance
instance : DecidablePred validUse := fun _ => by unfold validUse; infer_instance
instance : DecidablePred validDeclRef := fun _ => by unfold validDeclRef; infer_instance

/-! ## Finalization dedup (`uniquify`, indexer.cc lines 1221-1228) -/

/-- The loop of `uniquify`, with the `seen` set threaded explicitly. -/
def uniquifyAux {α : Type} [DecidableEq α] (seen : List α) : List α → List α
  | [] => []
  | x :: xs => if x ∈ seen then uniquifyAux seen xs else x :: uniquifyAux (x :: seen) xs

/-- `template <typename T> void uniquify(std::vector<T> &a)`: keeps the
first occurrence of each element, in order. -/
def uniquify {α : Type} [DecidableEq α] (a : List α) : List α := uniquifyAux [] a

/-- Index of the first occurrence of an element (formalization helper for
"order of first occurrence"). -/
def firstIdx {α : Type} [DecidableEq α] (x : α) : List α → Nat
  | [] => 0
  | y :: ys => if y = x then 0 else firstIdx x ys + 1

/-! ## Dependency stamping (idx::index finalization loop, lines 1359-1369) -/

/-- One staged file of the pass (`IndexParam::File`): its resolved path
and modification time. -/
structure StagedFile where
  path : String
  mtime : Int
deriving DecidableEq, Repr

/-- The fields of a finalized `IndexFile` the dependency loop touches. -/
structure FinalEntry where
  path : String
  import_file : String
  mtime : Int
  dependencies : List (String × Int)
deriving DecidableEq, Repr

/-- `entry->dependencies[key] = mtime`: map assignment (overwrite or append). -/
def depInsert (m : List (String × Int)) (k : String) (v : Int) : List (String × Int) :=
  if (m.filter (fun p => p.1 = k)).isEmpty then m ++ [(k, v)]
  else m.map (fun p => if p.1 = k then (k, v) else p)

/-- One iteration of the dependency-stamping loop body. -/
def stampStep (e : FinalEntry) (f : StagedFile) : FinalEntry :=
  if f.path = "" then e
  else if f.path = e.path then { e with mtime := f.mtime }
  else if f.path = e.import_file then e
  else { e with dependencies := depInsert e.dependencies f.path f.mtime }

/-- The dependency-stamping loop over every staged file of the pass. -/
def stampDependencies (files : List StagedFile) (e : FinalEntry) : FinalEntry :=
  files.foldl stampStep e

/-! ## File staging (`IndexParam::seenFile` / `consumeFile`, lines 69-96) -/

/-- What clang's `FileEntry` supplies for a file id. -/
structure FileEntryInfo where
  path : String
  mtime : Int
deriving DecidableEq, Repr

/-- External collaborators of file staging: clang's file-entry lookup,
the filesystem (`lastWriteTime`, `readContent`) and the VFS staleness
cache `stamp(path, mtime, mode) -> bool`. -/
structure StagingEnv where
  fileEntry : Nat → Option FileEntryInfo
  lastWrite : String → Option Int
  readContentF : String → Option String
  stampF : String → Int → Nat → Bool

/-- The `IndexFile` constructor arguments recorded on creation. -/
structure DbStub where
  path : String
  content : String
  no_linkage : Bool
deriving DecidableEq, Repr

/-- `IndexParam::File`: one staging record. -/
structure FileRec where
  path : String
  mtime : Int
  content : String
  db : Option DbStub
deriving DecidableEq, Repr

/-- The default-constructed staging record `try_emplace` inserts. -/
def emptyFileRec : FileRec := ⟨"", 0, "", none⟩

/-- Association-list lookup (models `std::unordered_map` access). -/
def alookup {β : Type} (k : Nat) : List (Nat × β) → Option β
  | [] => none
  | p :: ps => if p.1 = k then some p.2 else alookup k ps

/-- The staging state of one pass: the `uid2file` map, plus a log of the
staleness-cache consultations made so far (to count them). -/
structure StagingState where
  uid2file : List (Nat × FileRec)
  stampLog : List (String × Int × Nat)

/-- `IndexParam::seenFile`. -/
def seenFile (env : StagingEnv) (no_linkage : Bool) (st : StagingState) (fid : Nat) :
    StagingState :=
  if (alookup fid st.uid2file).isSome then st
  else
    match env.fileEntry fid with
    | none => { st with uid2file := st.uid2file ++ [(fid, emptyFileRec)] }
    | some fe =>
      let mtime := if fe.mtime = 0 then (env.lastWrite fe.path).getD 0 else fe.mtime
      let content := (env.readContentF fe.path).getD ""
      let mode := if no_linkage then 3 else 1
      let rec0 : FileRec :=
        ⟨fe.path, mtime, content,
          if env.stampF fe.path mtime mode then some ⟨fe.path, content, no_linkage⟩ else none⟩
      { uid2file := st.uid2file ++ [(fid, rec0)],
        stampLog := st.stampLog ++ [(fe.path, mtime, mode)] }

/-- `IndexParam::consumeFile`: stage then return the (possibly null) index. -/
def consumeFile (env : StagingEnv) (no_linkage : Bool) (st : StagingState) (fid : Nat) :
    StagingState × Option DbStub :=
  let st1 := seenFile env no_linkage st fid
  (st1, match alookup fid st1.uid2file with
        | some r => r.db
        | none => none)

/-! ## Identity resolution (`IndexDataConsumer::getUsr`, lines 473-491) -/

/-- External collaborators of identity resolution: canonical-declaration
resolution, USR generation, named-decl detection, the two name renderers
(after `simplifyAnonymous`), and the USR hash.  Declarations are
identified by opaque numeric handles. -/
structure UsrEnv where
  canon : Nat → Nat
  genUsr : Nat → String
  isNamed : Nat → Bool
  renderShort : Nat → String
  renderQualified : Nat → String
  hashU : String → Nat

/-- `IndexParam::DeclInfo`. -/
structure DeclInfo where
  usr : Nat
  short_name : String
  qualified : String
deriving DecidableEq, Repr

/-- The record `getUsr` computes on a cache miss for a canonical node. -/
def mkDeclInfo (env : UsrEnv) (c : Nat) : DeclInfo :=
  { usr := env.hashU (env.genUsr c),
    short_name := if env.isNamed c then env.renderShort c else "",
    qualified := if env.isNamed c then env.renderQualified c else "" }

/-- `IndexDataConsumer::getUsr`: canonicalize, look up the cache, on a
miss render and insert.  Returns the info, the new cache, and whether
name rendering ran during this call. -/
def getUsr (env : UsrEnv) (st : List (Nat × DeclInfo)) (d : Nat) :
    DeclInfo × List (Nat × DeclInfo) × Bool :=
  match alookup (env.canon d) st with
  | some info => (info, st, false)
  | none => (mkDeclInfo env (env.canon d),
             st ++ [(env.canon d, mkDeclInfo env (env.canon d))], true)

/-- Every cache entry is the computed record for its key. -/
def wfCache (env : UsrEnv) (st : List (Nat × DeclInfo)) : Prop :=
  ∀ kv ∈ st, kv.2 = mkDeclInfo env kv.1

/-! ## Classifier (`getKind`, lines 122-235) -/

/-- The declaration categories the `switch` in `getKind` names, plus
`OtherDecl` for its `default:` arm. -/
inductive DeclCategory
  | LinkageSpec
  | Namespace
  | NamespaceAlias
  | ObjCCategory
  | ObjCCategoryImpl
  | ObjCImplementation
  | ObjCInterface
  | ObjCProtocol
  | ObjCMethod
  | ObjCProperty
  | ClassTemplate
  | FunctionTemplate
  | TypeAliasTemplate
  | VarTemplate
  | TemplateTemplateParm
  | Enum
  | CXXRecord
  | Record
  | ClassTemplateSpecialization
  | ClassTemplatePartialSpecialization
  | TemplateTypeParm
  | TypeAlias
  | Typedef
  | UnresolvedUsingTypename
  | Using
  | Binding
  | Field
  | ObjCIvar
  | Function
  | CXXMethod
  | CXXConstructor
  | CXXConversion
  | CXXDestructor
  | NonTypeTemplateParm
  | Var
  | Decomposition
  | ImplicitParam
  | ParmVar
  | VarTemplateSpecialization
  | VarTemplatePartialSpecialization
  | EnumConstant
  | UnresolvedUsingValue
  | TranslationUnit
  | OtherDecl
deriving DecidableEq, Repr

/-- Tag kinds of a record declaration (`TTK_*`). -/
inductive TagKind
  | Struct
  | Interface
  | Union
  | Class
  | Enum
deriving DecidableEq, Repr

/-- Fine-grained symbol kinds used by `getKind` and the processors; the
source's `SymbolKind::Macro` is spelt `MacroSym` here. -/
inductive SymbolKind
  | Unknown
  | File
  | Namespace
  | Class
  | Method
  | Property
  | Field
  | Constructor
  | Enum
  | Interface
  | Function
  | Variable
  | EnumMember
  | Struct
  | TypeParameter
  | Parameter
  | StaticMethod
  | MacroSym
  | TypeAlias
  | Null
deriving DecidableEq, Repr

/-- The syntactic facts about a declaration node that `getKind` reads:
its category, and (where the category needs them) staticness and record
tag. -/
structure DeclNode where
  category : DeclCategory
  isStatic : Bool
  tagKind : TagKind
deriving DecidableEq, Repr

/-- `Kind getKind(const Decl *D, SymbolKind &kind)`: the out-parameter is
threaded as an input (`kind0`) and returned, since the `Invalid` arms
leave it unwritten. -/
def getKind (d : DeclNode) (kind0 : SymbolKind) : Kind × SymbolKind :=
  match d.category with
  | .LinkageSpec => (Kind.Invalid, kind0)
  | .Namespace => (Kind.TypeK, SymbolKind.Namespace)
  | .NamespaceAlias => (Kind.TypeK, SymbolKind.Namespace)
  | .ObjCCategory => (Kind.TypeK, SymbolKind.Interface)
  | .ObjCCategoryImpl => (Kind.TypeK, SymbolKind.Interface)
  | .ObjCImplementation => (Kind.TypeK, SymbolKind.Interface)
  | .ObjCInterface => (Kind.TypeK, SymbolKind.Interface)
  | .ObjCProtocol => (Kind.TypeK, SymbolKind.Interface)
  | .ObjCMethod => (Kind.Func, SymbolKind.Method)
  | .ObjCProperty => (Kind.TypeK, SymbolKind.Property)
  | .ClassTemplate => (Kind.TypeK, SymbolKind.Class)
  | .FunctionTemplate => (Kind.Func, SymbolKind.Function)
  | .TypeAliasTemplate => (Kind.TypeK, SymbolKind.TypeAlias)
  | .VarTemplate => (Kind.Var, SymbolKind.Variable)
  | .TemplateTemplateParm => (Kind.TypeK, SymbolKind.TypeParameter)
  | .Enum => (Kind.TypeK, SymbolKind.Enum)
  | .CXXRecord =>
    (Kind.TypeK, if d.tagKind = TagKind.Struct then SymbolKind.Struct else SymbolKind.Class)
  | .Record =>
    (Kind.TypeK, if d.tagKind = TagKind.Struct then SymbolKind.Struct else SymbolKind.Class)
  | .ClassTemplateSpecialization => (Kind.TypeK, SymbolKind.Class)
  | .ClassTemplatePartialSpecialization => (Kind.TypeK, SymbolKind.Class)
  | .TemplateTypeParm => (Kind.TypeK, SymbolKind.TypeParameter)
  | .TypeAlias => (Kind.TypeK, SymbolKind.TypeAlias)
  | .Typedef => (Kind.TypeK, SymbolKind.TypeAlias)
  | .UnresolvedUsingTypename => (Kind.TypeK, SymbolKind.TypeAlias)
  | .Using => (Kind.Invalid, SymbolKind.Null)
  | .Binding => (Kind.Var, SymbolKind.Variable)
  | .Field => (Kind.Var, SymbolKind.Field)
  | .ObjCIvar => (Kind.Var, SymbolKind.Field)
  | .Function => (Kind.Func, SymbolKind.Function)
  | .CXXMethod =>
    (Kind.Func, if d.isStatic then SymbolKind.StaticMethod else SymbolKind.Method)
  | .CXXConstructor => (Kind.Func, SymbolKind.Constructor)
  | .CXXConversion => (Kind.Func, SymbolKind.Method)
  | .CXXDestructor => (Kind.Func, SymbolKind.Method)
  | .NonTypeTemplateParm => (Kind.Var, SymbolKind.Parameter)
  | .Var => (Kind.Var, SymbolKind.Variable)
  | .Decomposition => (Kind.Var, SymbolKind.Variable)
  | .ImplicitParam => (Kind.Var, SymbolKind.Parameter)
  | .ParmVar => (Kind.Var, SymbolKind.Parameter)
  | .VarTemplateSpecialization => (Kind.Var, SymbolKind.Variable)
  | .VarTemplatePartialSpecialization => (Kind.Var, SymbolKind.Variable)
  | .EnumConstant => (Kind.Var, SymbolKind.EnumMember)
  | .UnresolvedUsingValue => (Kind.Var, SymbolKind.Variable)
  | .TranslationUnit => (Kind.Invalid, kind0)
  | .OtherDecl => (Kind.Invalid, kind0)

/-! ## Occurrence recording (`handleDeclOccurence` / `do_def_decl`, lines 744-800) -/

/-- Modelled from the spec: the role bit for a definition record
(numeric values of the role flags live in `indexer.hh`). -/
def roleDefinition : Nat := 2

/-- The per-entity occurrence fields `do_def_decl` touches. -/
structure EntityOcc where
  spell : Option DeclRef
  parent_kind : SymbolKind
  declarations : List DeclRef
  uses : List Use
  comments : String
deriving DecidableEq, Repr

/-- `if (is_decl && D->getKind() == Decl::Binding) is_def = true;` -/
def adjustIsDef (is_decl is_def : Bool) (cat : DeclCategory) : Bool :=
  if is_decl && decide (cat = DeclCategory.Binding) then true else is_def

/-- The first-writer-wins comment update at the end of `do_def_decl`. -/
def applyComment (enabled : Bool) (txt : String) (e : EntityOcc) : EntityOcc :=
  if e.comments = "" ∧ enabled = true then { e with comments := txt } else e

/-- `do_def_decl`: definitions set the definition record (and containing
kind), declarations append a declaration record, plain references append
a use; `pk` stands for the containing-kind value `getKind(SemDC, ...)`
writes. -/
def doDefDecl (is_def is_decl : Bool) (u : Use) (extent : Range) (pk : SymbolKind)
    (commentsEnabled : Bool) (commentText : String) (e : EntityOcc) : EntityOcc :=
  if is_def then
    applyComment commentsEnabled commentText
      { e with spell := some ⟨u, extent⟩, parent_kind := pk }
  else if is_decl then
    applyComment commentsEnabled commentText
      { e with declarations := e.declarations ++ [⟨u, extent⟩] }
  else
    { e with uses := e.uses ++ [u] }

/-! ## Entity maps (`IndexFile::toFunc/toType/toVar`, lines 1196-1215) -/

/-- An entity as stored in `usr2func`/`usr2type`/`usr2var`: its `usr`
field plus the rest of its payload (whose exact shape never touches
`usr`). -/
structure Ent where
  usr : Nat
  dataE : EntityOcc
deriving DecidableEq, Repr

/-- The value-initialized payload of a freshly created entity: no
definition record, nothing recorded yet. -/
def emptyOcc : EntityOcc := ⟨none, SymbolKind.Unknown, [], [], ""⟩

/-- `IndexFile::toFunc` (and `toType`, `toVar`, textually identical):
`try_emplace` then set `usr` on insertion. -/
def toEnt (m : List (Nat × Ent)) (u : Nat) : Ent × List (Nat × Ent) :=
  match alookup u m with
  | some e => (e, m)
  | none => (⟨u, emptyOcc⟩, m ++ [(u, ⟨u, emptyOcc⟩)])

/-- A mutation through the reference `toFunc`/`toType`/`toVar` returns:
only the payload can change, never the `usr` field. -/
def updateEnt (m : List (Nat × Ent)) (u : Nat) (f : EntityOcc → EntityOcc) :
    List (Nat × Ent) :=
  (toEnt m u).2.map (fun p => if p.1 = u then (p.1, ⟨p.2.usr, f p.2.dataE⟩) else p)

/-- The claimed invariant of the three entity maps. -/
def wfEnts (m : List (Nat × Ent)) : Prop :=
  (∀ kv ∈ m, kv.2.usr = kv.1) ∧ (m.map Prod.fst).Nodup

/-! ## Macro definition (`IndexPPCallbacks::getMacro` / `MacroDefined`, lines 1069-1127) -/

/-- `getMacro`: the symbol key of a macro is the hash of the fixed
namespace prefix plus its spelling; the hash itself (`hashUsr`) is an
external collaborator. -/
def macroUsr (hash : String → Nat) (name : String) : Nat := hash ("@macro@" ++ name)

/-- `Buf.count('\n')`. -/
def countNewlines (s : String) : Nat := s.data.count '\n'

/-- The definition fields of a macro's `Var` entity. -/
structure MacroVarDef where
  kind : SymbolKind
  parent_kind : SymbolKind
  spell : Option DeclRef
  detailed_name : String
  short_name_size : Nat
  hover : String
deriving DecidableEq, Repr

/-- A macro's `Var` entity. -/
structure MacroVar where
  defn : MacroVarDef
  declarations : List DeclRef
  uses : List Use
deriving DecidableEq, Repr

/-- The body of `MacroDefined` acting on the macro's `Var` entity:
`range` is the token range of the name, `extent` the definition range,
`defSource` the source text of that range. -/
def macroDefined (maxInitializerLines : Int) (name : String) (range extent : Range)
    (defSource : String) (v : MacroVar) : MacroVar :=
  let v1 : MacroVar :=
    { v with defn := { v.defn with kind := SymbolKind.MacroSym,
                                   parent_kind := SymbolKind.File } }
  let v2 : MacroVar :=
    match v1.defn.spell with
    | some s => { v1 with declarations := v1.declarations ++ [s] }
    | none => v1
  let v3 : MacroVar :=
    { v2 with defn := { v2.defn with
        spell := some ⟨⟨range, roleDefinition, -1⟩, extent⟩ } }
  if v3.defn.detailed_name = "" then
    { v3 with defn := { v3.defn with
        detailed_name := name,
        short_name_size := name.length,
        hover := if (countNewlines defSource : Int) ≤ maxInitializerLines - 1
                 then "#define " ++ defSource
                 else "#define " ++ name } }
  else v3

/-! ## Driver (`idx::index`, lines 1236-1332) -/

/-- The outcome-determining facts about one driver invocation:
whether `buildCompilerInvocation` succeeded, whether target creation
succeeded, whether the pass crashed inside the crash-recovery context,
whether `BeginSourceFile` succeeded, and what `Execute` reported. -/
structure DriverEnv where
  invocationBuilt : Bool
  hasTarget : Bool
  crashes : Bool
  beginOk : Bool
  executeErr : Option String
deriving Repr

/-- The `parse` lambda's effect on `ok` when it runs to completion
without crashing. -/
def runParse (env : DriverEnv) : Bool :=
  if !env.beginOk then false
  else match env.executeErr with
    | some _ => false
    | none => true

/-- The control skeleton of `idx::index`: returns the produced result
collection and the final value of `ok`; `finalized` abstracts the
finalized `IndexFile`s a successful pass hands back. -/
def idxIndex (env : DriverEnv) (finalized : List Nat) : List Nat × Bool :=
  if !env.invocationBuilt then ([], true)
  else if !env.hasTarget then ([], false)
  else if env.crashes then ([], false)
  else if runParse env then (finalized, true)
  else ([], false)

/-! ## Theorems -/

/-! ### Decimal codec lemmas -/

theorem digitChar_isDigit {d : Nat} (h : d < 10) : (digitChar d).isDigit = true := by
  interval_cases d <;> decide

theorem charToDigit_digitChar {d : Nat} (h : d < 10) : charToDigit (digitChar d) = d := by
  interval_cases d <;> decide

theorem natToChars_digits (n : Nat) : ∀ c ∈ natToChars n, c.isDigit = true := by
  induction n using Nat.strong_induction_on with
  | _ n ih =>
    intro c hc
    unfold natToChars at hc
    by_cases h : n < 10
    · rw [dif_pos h] at hc
      simp only [List.mem_singleton] at hc
      subst hc
      exact digitChar_isDigit h
    · rw [dif_neg h] at hc
      rw [List.mem_append, List.mem_singleton] at hc
      rcases hc with hc | rfl
      · exact ih (n / 10) (Nat.div_lt_self (by omega) (by omega)) c hc
      · exact digitChar_isDigit (Nat.mod_lt _ (by omega))

theorem natToChars_ne_nil (n : Nat) : natToChars n ≠ [] := by
  unfold natToChars
  by_cases h : n < 10
  · rw [dif_pos h]; simp
  · rw [dif_neg h]; simp

theorem parseNatAux_cons (acc : Nat) (c : Char) (cs : List Char) :
    parseNatAux acc (c :: cs)
      = if c.isDigit then parseNatAux (acc * 10 + charToDigit c) cs else (acc, c :: cs) :=
  rfl

theorem parseInt_cons (c : Char) (cs : List Char) :
    parseInt (c :: cs)
      = if c = '-' then ((-((parseNatAux 0 cs).1) : Int), (parseNatAux 0 cs).2)
        else (((parseNatAux 0 (c :: cs)).1 : Int), (parseNatAux 0 (c :: cs)).2) :=
  rfl

theorem parseNatAux_natToChars (n : Nat) : ∀ (acc : Nat) (rest : List Char),
    parseNatAux acc (natToChars n ++ rest)
      = parseNatAux (acc * 10 ^ (natToChars n).length + n) rest := by
  induction n using Nat.strong_induction_on with
  | _ n ih =>
    intro acc rest
    unfold natToChars
    by_cases h : n < 10
    · rw [dif_pos h]
      simp only [List.singleton_append, List.length_singleton, pow_one]
      rw [parseNatAux_cons, if_pos (digitChar_isDigit h), charToDigit_digitChar h]
    · rw [dif_neg h]
      rw [List.append_assoc, List.singleton_append,
        ih (n / 10) (Nat.div_lt_self (by omega) (by omega)) acc]
      have h10 : (n % 10) < 10 := Nat.mod_lt _ (by omega)
      rw [parseNatAux_cons, if_pos (digitChar_isDigit h10), charToDigit_digitChar h10]
      have hlen : (natToChars (n / 10) ++ [digitChar (n % 10)]).length
          = (natToChars (n / 10)).length + 1 := by simp
      rw [hlen]
      have e1 : (acc * 10 ^ (natToChars (n / 10)).length + n / 10) * 10 + n % 10
          = acc * (10 ^ (natToChars (n / 10)).length * 10) + (10 * (n / 10) + n % 10) := by
        ring
      rw [e1, Nat.div_add_mod, ← pow_succ]

theorem parseNatAux_stop (acc : Nat) {rest : List Char} (h : headNotDigit rest = true) :
    parseNatAux acc rest = (acc, rest) := by
  cases rest with
  | nil => rfl
  | cons c cs =>
    unfold headNotDigit at h
    rw [Bool.not_eq_true'] at h
    unfold parseNatAux
    rw [if_neg (by simp [h])]

theorem parseNat_natToChars (n : Nat) {rest : List Char} (h : headNotDigit rest = true) :
    parseNat (natToChars n ++ rest) = (n, rest) := by
  unfold parseNat
  rw [parseNatAux_natToChars, Nat.zero_mul, Nat.zero_add, parseNatAux_stop _ h]

theorem parseInt_intToChars (i : Int) {rest : List Char} (h : headNotDigit rest = true) :
    parseInt (intToChars i ++ rest) = (i, rest) := by
  unfold intToChars
  by_cases hi : i < 0
  · rw [if_pos hi]
    rw [List.cons_append, parseInt_cons, if_pos rfl]
    have := parseNat_natToChars i.natAbs h
    unfold parseNat at this
    rw [this]
    simp only [Prod.mk.injEq]
    constructor
    · omega
    · trivial
  · rw [if_neg hi]
    obtain ⟨c, cs, hcons⟩ : ∃ c cs, natToChars i.toNat = c :: cs := by
      cases hnc : natToChars i.toNat with
      | nil => exact absurd hnc (natToChars_ne_nil _)
      | cons c cs => exact ⟨c, cs, rfl⟩
    have hcd : c.isDigit = true := by
      have := natToChars_digits i.toNat c
      rw [hcons] at this
      exact this (List.mem_cons_self _ _)
    have hcne : ¬ c = '-' := by
      intro hc
      rw [hc] at hcd
      exact absurd hcd (by decide)
    rw [hcons, List.cons_append, parseInt_cons, if_neg hcne]
    have := @parseNat_natToChars i.toNat rest h
    unfold parseNat at this
    rw [hcons, List.cons_append] at this
    rw [this]
    simp only [Prod.mk.injEq]
    constructor
    · omega
    · trivial

theorem headNotDigit_cons {c : Char} (cs : List Char) (h : c.isDigit = false) :
    headNotDigit (c :: cs) = true := by
  show (!c.isDigit) = true
  rw [h]
  rfl

theorem expectChar_cons_self (c : Char) (l : List Char) : expectChar c (c :: l) = l := by
  show (if c = c then l else c :: l) = l
  rw [if_pos rfl]

theorem parseNat_natToChars_nil (n : Nat) : parseNat (natToChars n) = (n, []) := by
  have := @parseNat_natToChars n [] (by rfl)
  rwa [List.append_nil] at this

theorem parseInt_intToChars_nil (i : Int) : parseInt (intToChars i) = (i, []) := by
  have := @parseInt_intToChars i [] (by rfl)
  rwa [List.append_nil] at this

theorem kindOfNat_kindToNat (k : Kind) : kindOfNat (kindToNat k) = k := by
  cases k <;> rfl

/-! ### Textual round-trips -/

theorem parseRange_rangeToChars (a b c d : Nat) {rest : List Char}
    (h : headNotDigit rest = true) :
    parseRange (rangeToChars ⟨⟨a, b⟩, ⟨c, d⟩⟩ ++ rest) = (⟨⟨a, b⟩, ⟨c, d⟩⟩, rest) := by
  have hcolon : (':' : Char).isDigit = false := by decide
  have hdash : ('-' : Char).isDigit = false := by decide
  unfold rangeToChars
  simp only [List.append_assoc, List.cons_append]
  have h4 : parseNat (natToChars d ++ rest) = (d, rest) := parseNat_natToChars d h
  have h3 : parseNat (natToChars c ++ ':' :: (natToChars d ++ rest))
      = (c, ':' :: (natToChars d ++ rest)) :=
    parseNat_natToChars c (headNotDigit_cons _ hcolon)
  have h2 : parseNat (natToChars b ++ '-' :: (natToChars c ++ ':' :: (natToChars d ++ rest)))
      = (b, '-' :: (natToChars c ++ ':' :: (natToChars d ++ rest))) :=
    parseNat_natToChars b (headNotDigit_cons _ hdash)
  have h1 : parseNat (natToChars a ++ ':' ::
        (natToChars b ++ '-' :: (natToChars c ++ ':' :: (natToChars d ++ rest))))
      = (a, ':' :: (natToChars b ++ '-' :: (natToChars c ++ ':' :: (natToChars d ++ rest)))) :=
    parseNat_natToChars a (headNotDigit_cons _ hcolon)
  simp only [parseRange, h1, expectChar_cons_self, h2, h3, h4]

theorem decode_encode_symbolRef (v : SymbolRef) : decodeSymbolRef (encodeSymbolRef v) = v := by
  obtain ⟨⟨⟨a, b⟩, ⟨c, d⟩⟩, usr, k, role⟩ := v
  have hbar : ('|' : Char).isDigit = false := by decide
  have hr := @parseRange_rangeToChars a b c d
    ('|' :: (natToChars usr ++ '|' ::
      (natToChars (kindToNat k) ++ '|' :: natToChars role)))
    (headNotDigit_cons _ hbar)
  have hu := @parseNat_natToChars usr
    ('|' :: (natToChars (kindToNat k) ++ '|' :: natToChars role))
    (headNotDigit_cons _ hbar)
  have hk := @parseNat_natToChars (kindToNat k) ('|' :: natToChars role)
    (headNotDigit_cons _ hbar)
  simp only [encodeSymbolRef, decodeSymbolRef, hr, expectChar_cons_self, hu, hk,
    parseNat_natToChars_nil, kindOfNat_kindToNat]

theorem decode_encode_use (v : Use) : decodeUse (encodeUse v) = v := by
  obtain ⟨⟨⟨a, b⟩, ⟨c, d⟩⟩, role, fid⟩ := v
  have hbar : ('|' : Char).isDigit = false := by decide
  have hr := @parseRange_rangeToChars a b c d
    ('|' :: (natToChars role ++ '|' :: intToChars fid))
    (headNotDigit_cons _ hbar)
  have hro := @parseNat_natToChars role ('|' :: intToChars fid)
    (headNotDigit_cons _ hbar)
  simp only [encodeUse, decodeUse, hr, expectChar_cons_self, hro, parseInt_intToChars_nil]

theorem decode_encode_declRef (v : DeclRef) : decodeDeclRef (encodeDeclRef v) = v := by
  obtain ⟨⟨⟨⟨a, b⟩, ⟨c, d⟩⟩, role, fid⟩, ⟨⟨e, f⟩, ⟨g, k⟩⟩⟩ := v
  have hbar : ('|' : Char).isDigit = false := by decide
  have hr1 := @parseRange_rangeToChars a b c d
    ('|' :: (rangeToChars ⟨⟨e, f⟩, ⟨g, k⟩⟩ ++ '|' ::
      (natToChars role ++ '|' :: intToChars fid)))
    (headNotDigit_cons _ hbar)
  have hr2 := @parseRange_rangeToChars e f g k
    ('|' :: (natToChars role ++ '|' :: intToChars fid))
    (headNotDigit_cons _ hbar)
  have hro := @parseNat_natToChars role ('|' :: intToChars fid)
    (headNotDigit_cons _ hbar)
  simp only [encodeDeclRef, decodeDeclRef, hr1, expectChar_cons_self, hr2, hro,
    parseInt_intToChars_nil]

/-! ### Binary round-trips -/

theorem bytesToNat_cons (w b : Nat) (bs : List Nat) :
    bytesToNat (w + 1) (b :: bs) = (b + 256 * (bytesToNat w bs).1, (bytesToNat w bs).2) :=
  rfl

theorem bytesToNat_natToBytes (w : Nat) : ∀ (n : Nat) (rest : List Nat), n < 256 ^ w →
    bytesToNat w (natToBytes w n ++ rest) = (n, rest) := by
  induction w with
  | zero =>
    intro n rest h
    have : n = 0 := by
      have : (256 : Nat) ^ 0 = 1 := by norm_num
      omega
    subst this
    rfl
  | succ w ih =>
    intro n rest h
    have hdiv : n / 256 < 256 ^ w := by
      apply Nat.div_lt_of_lt_mul
      have : (256 : Nat) ^ (w + 1) = 256 ^ w * 256 := pow_succ 256 w
      omega
    show bytesToNat (w + 1) ((n % 256 :: natToBytes w (n / 256)) ++ rest) = (n, rest)
    rw [List.cons_append, bytesToNat_cons, ih (n / 256) rest hdiv]
    simp only [Prod.mk.injEq]
    constructor
    · omega
    · trivial

theorem bytesToInt4_intToBytes4 (i : Int) (rest : List Nat)
    (h1 : -2147483648 ≤ i) (h2 : i < 2147483648) :
    bytesToInt4 (intToBytes4 i ++ rest) = (i, rest) := by
  have hlt : (i % 4294967296).toNat < 256 ^ 4 := by
    have : (256 : Nat) ^ 4 = 4294967296 := by norm_num
    omega
  unfold intToBytes4 bytesToInt4
  rw [bytesToNat_natToBytes 4 _ rest hlt]
  show ((if (i % 4294967296).toNat < 2147483648 then ((i % 4294967296).toNat : Int)
         else ((i % 4294967296).toNat : Int) - 4294967296), rest) = (i, rest)
  split_ifs with hc <;> (simp only [Prod.mk.injEq]; exact ⟨by omega, trivial⟩)

theorem bytesToRange_rangeToBytes (a b c d : Nat) (rest : List Nat)
    (ha : a < 65536) (hb : b < 65536) (hc : c < 65536) (hd : d < 65536) :
    bytesToRange (rangeToBytes ⟨⟨a, b⟩, ⟨c, d⟩⟩ ++ rest) = (⟨⟨a, b⟩, ⟨c, d⟩⟩, rest) := by
  have hp : (256 : Nat) ^ 2 = 65536 := by norm_num
  unfold rangeToBytes
  simp only [List.append_assoc]
  have e4 := bytesToNat_natToBytes 2 d rest (by omega)
  have e3 := bytesToNat_natToBytes 2 c (natToBytes 2 d ++ rest) (by omega)
  have e2 := bytesToNat_natToBytes 2 b (natToBytes 2 c ++ (natToBytes 2 d ++ rest)) (by omega)
  have e1 := bytesToNat_natToBytes 2 a
    (natToBytes 2 b ++ (natToBytes 2 c ++ (natToBytes 2 d ++ rest))) (by omega)
  simp only [bytesToRange, e1, e2, e3, e4]

theorem decode_encode_symbolRefBin (v : SymbolRef) (hv : validSymbolRef v) :
    decodeSymbolRefBin (encodeSymbolRefBin v) = (v, []) := by
  obtain ⟨⟨⟨a, b⟩, ⟨c, d⟩⟩, usr, k, role⟩ := v
  simp only [validSymbolRef, validRange, validPos] at hv
  obtain ⟨⟨⟨ha, hb⟩, ⟨hc, hd⟩⟩, husr, hrole⟩ := hv
  have hkind : kindToNat k < 256 ^ 1 := by cases k <;> decide
  have husr8 : usr < 256 ^ 8 := by
    have : (256 : Nat) ^ 8 = 18446744073709551616 := by norm_num
    omega
  have hrole2 : role < 256 ^ 2 := by
    have : (256 : Nat) ^ 2 = 65536 := by norm_num
    omega
  unfold encodeSymbolRefBin
  simp only [List.append_assoc]
  have e4 : bytesToNat 2 (natToBytes 2 role ++ []) = (role, []) :=
    bytesToNat_natToBytes 2 role [] hrole2
  rw [List.append_nil] at e4
  have e3 := bytesToNat_natToBytes 1 (kindToNat k) (natToBytes 2 role) hkind
  have e2 := bytesToNat_natToBytes 8 usr
    (natToBytes 1 (kindToNat k) ++ natToBytes 2 role) husr8
  have e1 := bytesToRange_rangeToBytes a b c d
    (natToBytes 8 usr ++ (natToBytes 1 (kindToNat k) ++ natToBytes 2 role))
    ha hb hc hd
  simp only [List.append_assoc] at e1
  simp only [decodeSymbolRefBin, e1, e2, e3, e4, kindOfNat_kindToNat]

theorem decode_encode_useBin (v : Use) (hv : validUse v) :
    decodeUseBin (encodeUseBin v) = (v, []) := by
  obtain ⟨⟨⟨a, b⟩, ⟨c, d⟩⟩, role, fid⟩ := v
  simp only [validUse, validRange, validPos] at hv
  obtain ⟨⟨⟨ha, hb⟩, ⟨hc, hd⟩⟩, hrole, hf1, hf2⟩ := hv
  have hrole2 : role < 256 ^ 2 := by
    have : (256 : Nat) ^ 2 = 65536 := by norm_num
    omega
  unfold encodeUseBin
  simp only [List.append_assoc]
  have e3 : bytesToInt4 (intToBytes4 fid ++ []) = (fid, []) :=
    bytesToInt4_intToBytes4 fid [] hf1 hf2
  rw [List.append_nil] at e3
  have e2 := bytesToNat_natToBytes 2 role (intToBytes4 fid) hrole2
  have e1 := bytesToRange_rangeToBytes a b c d
    (natToBytes 2 role ++ intToBytes4 fid) ha hb hc hd
  simp only [List.append_assoc] at e1
  simp only [decodeUseBin, e1, e2, e3]

theorem decode_encode_declRefBin (v : DeclRef) (hv : validDeclRef v) :
    decodeDeclRefBin (encodeDeclRefBin v) = (v, []) := by
  obtain ⟨⟨⟨⟨a, b⟩, ⟨c, d⟩⟩, role, fid⟩, ⟨⟨e, f⟩, ⟨g, k⟩⟩⟩ := v
  simp only [validDeclRef, validUse, validRange, validPos] at hv
  obtain ⟨⟨⟨⟨ha, hb⟩, ⟨hc, hd⟩⟩, hrole, hf1, hf2⟩, ⟨⟨he, hf⟩, ⟨hg, hk⟩⟩⟩ := hv
  have hrole2 : role < 256 ^ 2 := by
    have : (256 : Nat) ^ 2 = 65536 := by norm_num
    omega
  unfold encodeDeclRefBin encodeUseBin
  simp only [List.append_assoc]
  have e4 : bytesToRange (rangeToBytes ⟨⟨e, f⟩, ⟨g, k⟩⟩ ++ []) = (⟨⟨e, f⟩, ⟨g, k⟩⟩, []) :=
    bytesToRange_rangeToBytes e f g k [] he hf hg hk
  rw [List.append_nil] at e4
  have e3 := bytesToInt4_intToBytes4 fid (rangeToBytes ⟨⟨e, f⟩, ⟨g, k⟩⟩) hf1 hf2
  have e2 := bytesToNat_natToBytes 2 role
    (intToBytes4 fid ++ rangeToBytes ⟨⟨e, f⟩, ⟨g, k⟩⟩) hrole2
  have e1 := bytesToRange_rangeToBytes a b c d
    (natToBytes 2 role ++ (intToBytes4 fid ++ rangeToBytes ⟨⟨e, f⟩, ⟨g, k⟩⟩)) ha hb hc hd
  simp only [List.append_assoc] at e1
  simp only [decodeDeclRefBin, decodeUseBin, e1, e2, e3, e4]

/-! ### Claim C1 -/

/-- Claim C1: for every valid `SymbolRef`, `Use`, and `DeclRef` value,
decoding the just-encoded value reproduces the original fields exactly,
for both the pipe-delimited textual form (`range|usr|kind|role` for
`SymbolRef`; `range|role|file-index` for `Use`; `range|extent|role|file-index`
for `DeclRef`) and the fixed-field binary form: decode(encode(v)) = v. -/
theorem claim_C1_serialization_roundtrip (sr : SymbolRef) (u : Use) (dr : DeclRef)
    (hsr : validSymbolRef sr) (hu : validUse u) (hdr : validDeclRef dr) :
    decodeSymbolRef (encodeSymbolRef sr) = sr ∧
    decodeUse (encodeUse u) = u ∧
    decodeDeclRef (encodeDeclRef dr) = dr ∧
    decodeSymbolRefBin (encodeSymbolRefBin sr) = (sr, []) ∧
    decodeUseBin (encodeUseBin u) = (u, []) ∧
    decodeDeclRefBin (encodeDeclRefBin dr) = (dr, []) :=
  ⟨decode_encode_symbolRef sr, decode_encode_use u, decode_encode_declRef dr,
   decode_encode_symbolRefBin sr hsr, decode_encode_useBin u hu,
   decode_encode_declRefBin dr hdr⟩

/-- Concrete instantiation of the C1 round-trip on sample records. -/
theorem claim_C1_serialization_roundtrip_witness :
    decodeUse (encodeUse ⟨⟨⟨1, 2⟩, ⟨3, 4⟩⟩, 6, -1⟩) = ⟨⟨⟨1, 2⟩, ⟨3, 4⟩⟩, 6, -1⟩ :=
  (claim_C1_serialization_roundtrip
    ⟨⟨⟨1, 2⟩, ⟨3, 4⟩⟩, 123456789, Kind.Func, 5⟩
    ⟨⟨⟨1, 2⟩, ⟨3, 4⟩⟩, 6, -1⟩
    ⟨⟨⟨⟨1, 2⟩, ⟨3, 4⟩⟩, 2, 0⟩, ⟨⟨1, 0⟩, ⟨9, 9⟩⟩⟩
    (by decide) (by decide) (by decide)).2.1

/-! ### uniquify lemmas -/

theorem uniquifyAux_cons {α : Type} [DecidableEq α] (seen : List α) (x : α) (xs : List α) :
    uniquifyAux seen (x :: xs)
      = if x ∈ seen then uniquifyAux seen xs else x :: uniquifyAux (x :: seen) xs :=
  rfl

theorem firstIdx_cons {α : Type} [DecidableEq α] (x y : α) (ys : List α) :
    firstIdx x (y :: ys) = if y = x then 0 else firstIdx x ys + 1 :=
  rfl

theorem mem_uniquifyAux {α : Type} [DecidableEq α] (l : List α) :
    ∀ (seen : List α) (x : α), x ∈ uniquifyAux seen l ↔ x ∈ l ∧ x ∉ seen := by
  induction l with
  | nil => intro seen x; simp [uniquifyAux]
  | cons y ys ih =>
    intro seen x
    rw [uniquifyAux_cons]
    by_cases hy : y ∈ seen
    · rw [if_pos hy, ih]
      constructor
      · rintro ⟨hx, hns⟩
        exact ⟨List.mem_cons_of_mem _ hx, hns⟩
      · rintro ⟨hx, hns⟩
        rcases List.mem_cons.mp hx with rfl | hx
        · exact absurd hy hns
        · exact ⟨hx, hns⟩
    · rw [if_neg hy, List.mem_cons, ih]
      constructor
      · rintro (rfl | ⟨hx, hns⟩)
        · exact ⟨List.mem_cons_self _ _, hy⟩
        · refine ⟨List.mem_cons_of_mem _ hx, fun hs => hns (List.mem_cons_of_mem _ hs)⟩
      · rintro ⟨hx, hns⟩
        by_cases hxy : x = y
        · exact Or.inl hxy
        · rcases List.mem_cons.mp hx with h1 | h1
          · exact absurd h1 hxy
          · exact Or.inr ⟨h1, by simp [List.mem_cons, hxy, hns]⟩

theorem nodup_uniquifyAux {α : Type} [DecidableEq α] (l : List α) :
    ∀ seen : List α, (uniquifyAux seen l).Nodup := by
  induction l with
  | nil => intro seen; exact List.nodup_nil
  | cons y ys ih =>
    intro seen
    rw [uniquifyAux_cons]
    by_cases hy : y ∈ seen
    · rw [if_pos hy]; exact ih seen
    · rw [if_neg hy]
      refine List.nodup_cons.mpr ⟨?_, ih (y :: seen)⟩
      intro hmem
      exact ((mem_uniquifyAux ys (y :: seen) y).mp hmem).2 (List.mem_cons_self _ _)

theorem uniquifyAux_sublist {α : Type} [DecidableEq α] (l : List α) :
    ∀ seen : List α, (uniquifyAux seen l).Sublist l := by
  induction l with
  | nil => intro _; exact List.nil_sublist _
  | cons y ys ih =>
    intro seen
    rw [uniquifyAux_cons]
    by_cases hy : y ∈ seen
    · rw [if_pos hy]; exact List.Sublist.cons y (ih seen)
    · rw [if_neg hy]; exact List.Sublist.cons₂ y (ih (y :: seen))

theorem uniquifyAux_idem {α : Type} [DecidableEq α] (l : List α) :
    ∀ seen : List α, uniquifyAux seen (uniquifyAux seen l) = uniquifyAux seen l := by
  induction l with
  | nil => intro _; rfl
  | cons y ys ih =>
    intro seen
    rw [uniquifyAux_cons]
    by_cases hy : y ∈ seen
    · rw [if_pos hy]; exact ih seen
    · rw [if_neg hy, uniquifyAux_cons, if_neg hy, ih (y :: seen)]

theorem uniquifyAux_firstIdx {α : Type} [DecidableEq α] (l : List α) :
    ∀ (seen : List α) (x y : α), x ∈ uniquifyAux seen l → y ∈ uniquifyAux seen l →
      (firstIdx x (uniquifyAux seen l) ≤ firstIdx y (uniquifyAux seen l) ↔
        firstIdx x l ≤ firstIdx y l) := by
  induction l with
  | nil => intro seen x y hx _; exact absurd hx (by simp [uniquifyAux])
  | cons z zs ih =>
    intro seen x y hx hy
    rw [uniquifyAux_cons] at hx hy ⊢
    by_cases hz : z ∈ seen
    · rw [if_pos hz] at hx hy ⊢
      have hxz : ¬ z = x := by
        intro e
        exact ((mem_uniquifyAux zs seen x).mp hx).2 (e ▸ hz)
      have hyz : ¬ z = y := by
        intro e
        exact ((mem_uniquifyAux zs seen y).mp hy).2 (e ▸ hz)
      rw [firstIdx_cons x z zs, firstIdx_cons y z zs, if_neg hxz, if_neg hyz]
      have := ih seen x y hx hy
      omega
    · rw [if_neg hz] at hx hy ⊢
      by_cases hxz : x = z
      · subst hxz
        rw [firstIdx_cons x x _, if_pos rfl, firstIdx_cons x x zs, if_pos rfl]
        simp [Nat.zero_le]
      · have hx1 : x ∈ uniquifyAux (z :: seen) zs := by
          rcases List.mem_cons.mp hx with e | h1
          · exact absurd e hxz
          · exact h1
        by_cases hyz : y = z
        · subst hyz
          have hzx : ¬ y = x := fun e => hxz e.symm
          rw [firstIdx_cons x y _, firstIdx_cons y y _, firstIdx_cons x y zs,
            firstIdx_cons y y zs, if_neg hzx, if_neg hzx, if_pos rfl, if_pos rfl]
          omega
        · have hy1 : y ∈ uniquifyAux (z :: seen) zs := by
            rcases List.mem_cons.mp hy with e | h1
            · exact absurd e hyz
            · exact h1
          have hzx : ¬ z = x := fun e => hxz e.symm
          have hzy : ¬ z = y := fun e => hyz e.symm
          rw [firstIdx_cons x z _, firstIdx_cons y z _,
            firstIdx_cons x z zs, firstIdx_cons y z zs,
            if_neg hzx, if_neg hzx, if_neg hzy, if_neg hzy]
          have := ih (z :: seen) x y hx1 hy1
          omega

/-! ### Claim C2 -/

/-- Claim C2: the finalization deduplication step (`uniquify`) is
idempotent and order-preserving: applying it twice equals applying it
once, the output contains each element exactly once, and surviving
elements appear in the order of their first occurrence in the input
(stated as: the output is a sublist of the input with the same members,
and relative order in the output matches first-occurrence order in the
input). -/
theorem claim_C2_uniquify {α : Type} [DecidableEq α] (l : List α) :
    uniquify (uniquify l) = uniquify l ∧
    (uniquify l).Nodup ∧
    (∀ x, x ∈ uniquify l ↔ x ∈ l) ∧
    (uniquify l).Sublist l ∧
    (∀ x y, x ∈ uniquify l → y ∈ uniquify l →
      (firstIdx x (uniquify l) ≤ firstIdx y (uniquify l) ↔ firstIdx x l ≤ firstIdx y l)) ∧
    (∀ x, x ∈ l → (uniquify l).count x = 1) := by
  refine ⟨uniquifyAux_idem l [], nodup_uniquifyAux l [], ?_, uniquifyAux_sublist l [],
    uniquifyAux_firstIdx l [], ?_⟩
  · intro x
    rw [show uniquify l = uniquifyAux [] l from rfl, mem_uniquifyAux]
    simp
  · intro x hx
    refine List.count_eq_one_of_mem (nodup_uniquifyAux l []) ?_
    rw [show uniquify l = uniquifyAux [] l from rfl, mem_uniquifyAux]
    simp [hx]

/-- Concrete instantiation of the C2 dedup properties. -/
theorem claim_C2_uniquify_witness : (uniquify [1, 2, 1, 3, 2]).count 3 = 1 :=
  (claim_C2_uniquify [1, 2, 1, 3, 2]).2.2.2.2.2 3 (by decide)

/-! ### Dependency stamping lemmas -/

theorem stampDependencies_cons (f : StagedFile) (fs : List StagedFile) (e : FinalEntry) :
    stampDependencies (f :: fs) e = stampDependencies fs (stampStep e f) :=
  rfl

theorem stampStep_path (e : FinalEntry) (f : StagedFile) :
    (stampStep e f).path = e.path ∧ (stampStep e f).import_file = e.import_file := by
  unfold stampStep
  split_ifs <;> exact ⟨rfl, rfl⟩

theorem mem_depInsert {m : List (String × Int)} {k : String} {v : Int} {kv : String × Int}
    (h : kv ∈ depInsert m k v) : kv.1 = k ∨ kv ∈ m := by
  unfold depInsert at h
  split_ifs at h with hc
  · rw [List.mem_append] at h
    rcases h with h | h
    · exact Or.inr h
    · rw [List.mem_singleton] at h
      rw [h]
      exact Or.inl rfl
  · rw [List.mem_map] at h
    obtain ⟨p, hp, he⟩ := h
    by_cases hpk : p.1 = k
    · rw [if_pos hpk] at he
      rw [← he]
      exact Or.inl rfl
    · rw [if_neg hpk] at he
      rw [← he]
      exact Or.inr hp

theorem stampStep_deps (e : FinalEntry) (f : StagedFile) {kv : String × Int}
    (h : kv ∈ (stampStep e f).dependencies) :
    kv ∈ e.dependencies ∨ (kv.1 ≠ e.path ∧ kv.1 ≠ e.import_file) := by
  unfold stampStep at h
  split_ifs at h with h1 h2 h3
  · exact Or.inl h
  · exact Or.inl h
  · exact Or.inl h
  · rcases mem_depInsert h with hk | hk
    · right
      rw [hk]
      exact ⟨h2, h3⟩
    · exact Or.inl hk

theorem stampDependencies_inv (files : List StagedFile) :
    ∀ e : FinalEntry,
      (∀ kv ∈ e.dependencies, kv.1 ≠ e.path ∧ kv.1 ≠ e.import_file) →
      (stampDependencies files e).path = e.path ∧
      (stampDependencies files e).import_file = e.import_file ∧
      ∀ kv ∈ (stampDependencies files e).dependencies,
        kv.1 ≠ e.path ∧ kv.1 ≠ e.import_file := by
  induction files with
  | nil => intro e he; exact ⟨rfl, rfl, he⟩
  | cons f fs ih =>
    intro e he
    have hp := stampStep_path e f
    have hinv : ∀ kv ∈ (stampStep e f).dependencies,
        kv.1 ≠ (stampStep e f).path ∧ kv.1 ≠ (stampStep e f).import_file := by
      intro kv hkv
      rw [hp.1, hp.2]
      rcases stampStep_deps e f hkv with h1 | h1
      · exact he kv h1
      · exact h1
    obtain ⟨hp1, hp2, hd⟩ := ih (stampStep e f) hinv
    rw [stampDependencies_cons]
    refine ⟨hp1.trans hp.1, hp2.trans hp.2, ?_⟩
    intro kv hkv
    have := hd kv hkv
    rw [hp.1, hp.2] at this
    exact this

theorem stampDependencies_mtime (files : List StagedFile) :
    ∀ e : FinalEntry, e.path ≠ "" →
      (stampDependencies files e).mtime
        = (files.filterMap
            (fun f => if f.path = e.path then some f.mtime else none)).getLastD e.mtime := by
  induction files with
  | nil => intro e _; rfl
  | cons f fs ih =>
    intro e he
    rw [stampDependencies_cons]
    unfold stampStep
    by_cases h1 : f.path = ""
    · rw [if_pos h1]
      have h2 : ¬ f.path = e.path := fun hc => he (by rw [← hc, h1])
      rw [List.filterMap_cons]
      simp only [if_neg h2]
      exact ih e he
    · rw [if_neg h1]
      by_cases h2 : f.path = e.path
      · rw [if_pos h2, List.filterMap_cons]
        simp only [if_pos h2]
        rw [ih { e with mtime := f.mtime } he, List.getLastD_cons]
      · rw [if_neg h2]
        by_cases h3 : f.path = e.import_file
        · rw [if_pos h3, List.filterMap_cons]
          simp only [if_neg h2]
          exact ih e he
        · rw [if_neg h3, List.filterMap_cons]
          simp only [if_neg h2]
          exact ih { e with dependencies := depInsert e.dependencies f.path f.mtime } he

/-! ### Claim C3 -/

/-- Claim C3: for every finalized `IndexFile` produced by a completed
pass, its dependency map contains neither the `IndexFile`'s own path nor
the pass's main input file path; and the entry whose path equals a staged
file's path instead has its modification time copied from that staged
entry. -/
theorem claim_C3_dependency_exclusion (files : List StagedFile) (p imp : String) (m0 : Int)
    (hp : p ≠ "") :
    (∀ kv ∈ (stampDependencies files ⟨p, imp, m0, []⟩).dependencies,
      kv.1 ≠ p ∧ kv.1 ≠ imp) ∧
    (stampDependencies files ⟨p, imp, m0, []⟩).mtime
      = (files.filterMap (fun f => if f.path = p then some f.mtime else none)).getLastD m0 := by
  constructor
  · intro kv hkv
    exact (stampDependencies_inv files ⟨p, imp, m0, []⟩ (by simp)).2.2 kv hkv
  · exact stampDependencies_mtime files ⟨p, imp, m0, []⟩ hp

/-- Concrete instantiation of the C3 dependency stamping: the entry's own
staged record supplies its modification time. -/
theorem claim_C3_dependency_exclusion_witness :
    (stampDependencies ([⟨"a.h", 5⟩, ⟨"main.cc", 7⟩, ⟨"self.cc", 9⟩] : List StagedFile)
        ⟨"self.cc", "main.cc", 0, []⟩).mtime
      = (([⟨"a.h", 5⟩, ⟨"main.cc", 7⟩, ⟨"self.cc", 9⟩] : List StagedFile).filterMap
          (fun f => if f.path = "self.cc" then some f.mtime else none)).getLastD 0 :=
  (claim_C3_dependency_exclusion ([⟨"a.h", 5⟩, ⟨"main.cc", 7⟩, ⟨"self.cc", 9⟩] : List StagedFile)
    "self.cc" "main.cc" 0 (by decide)).2

/-! ### Association list lemmas -/

theorem alookup_cons {β : Type} (k : Nat) (p : Nat × β) (ps : List (Nat × β)) :
    alookup k (p :: ps) = if p.1 = k then some p.2 else alookup k ps :=
  rfl

theorem alookup_append_of_none {β : Type} {k : Nat} {l : List (Nat × β)} (v : β)
    (h : alookup k l = none) : alookup k (l ++ [(k, v)]) = some v := by
  induction l with
  | nil => simp [alookup]
  | cons p ps ih =>
    rw [alookup_cons] at h
    rw [List.cons_append, alookup_cons]
    by_cases hp : p.1 = k
    · rw [if_pos hp] at h
      exact absurd h (by simp)
    · rw [if_neg hp] at h
      rw [if_neg hp]
      exact ih h

theorem alookup_mem {β : Type} {k : Nat} {l : List (Nat × β)} {v : β}
    (h : alookup k l = some v) : (k, v) ∈ l := by
  induction l with
  | nil => exact absurd h (by simp [alookup])
  | cons p ps ih =>
    obtain ⟨pk, pv⟩ := p
    rw [alookup_cons] at h
    by_cases hp : pk = k
    · rw [if_pos hp] at h
      have hv : pv = v := Option.some.inj h
      rw [← hp, ← hv]
      exact List.mem_cons_self _ _
    · rw [if_neg hp] at h
      exact List.mem_cons_of_mem _ (ih h)

theorem alookup_eq_none {β : Type} {k : Nat} {l : List (Nat × β)}
    (h : alookup k l = none) : k ∉ l.map Prod.fst := by
  induction l with
  | nil => simp
  | cons p ps ih =>
    rw [alookup_cons] at h
    by_cases hp : p.1 = k
    · rw [if_pos hp] at h
      exact absurd h (by simp)
    · rw [if_neg hp] at h
      simp only [List.map_cons, List.mem_cons]
      intro hmem
      rcases hmem with e | e
      · exact hp e.symm
      · exact ih h e

/-! ### Claim C4 -/

/-- Claim C4: file staging consults the staleness cache exactly once per
distinct file handle, with key (path, mtime, mode-tag) where the mode-tag
distinguishes the body-skipping (`no_linkage`) pass from a full pass (3
vs. 1); when the cache reports the file need not be re-indexed, no
`IndexFile` is created and every later staging call for the same handle
returns the cached null decision without consulting the cache again. -/
theorem claim_C4_staging (env : StagingEnv) (nl : Bool) (st : StagingState) (fid : Nat)
    (fe : FileEntryInfo) (m : Int) (mode : Nat)
    (hm : m = (if fe.mtime = 0 then (env.lastWrite fe.path).getD 0 else fe.mtime))
    (hmode : mode = (if nl then 3 else 1))
    (hfresh : alookup fid st.uid2file = none)
    (hfe : env.fileEntry fid = some fe) :
    (seenFile env nl st fid).stampLog = st.stampLog ++ [(fe.path, m, mode)] ∧
    (∀ st2 : StagingState, (alookup fid st2.uid2file).isSome = true →
      seenFile env nl st2 fid = st2) ∧
    (env.stampF fe.path m mode = false →
      (consumeFile env nl st fid).2 = none ∧
      (consumeFile env nl (seenFile env nl st fid) fid).2 = none ∧
      (consumeFile env nl (seenFile env nl st fid) fid).1 = seenFile env nl st fid) := by
  subst hm
  subst hmode
  have hidem : ∀ st2 : StagingState, (alookup fid st2.uid2file).isSome = true →
      seenFile env nl st2 fid = st2 := by
    intro st2 h2
    unfold seenFile
    rw [if_pos h2]
  have hlog : (seenFile env nl st fid).stampLog = st.stampLog ++
      [(fe.path, (if fe.mtime = 0 then (env.lastWrite fe.path).getD 0 else fe.mtime),
        (if nl then 3 else 1))] := by
    unfold seenFile
    rw [hfresh, hfe]
    simp
  refine ⟨hlog, hidem, fun hstamp => ?_⟩
  have hst1 : seenFile env nl st fid
      = ⟨st.uid2file ++ [(fid,
            ⟨fe.path, (if fe.mtime = 0 then (env.lastWrite fe.path).getD 0 else fe.mtime),
             (env.readContentF fe.path).getD "", none⟩)],
         st.stampLog ++ [(fe.path,
            (if fe.mtime = 0 then (env.lastWrite fe.path).getD 0 else fe.mtime),
            (if nl then 3 else 1))]⟩ := by
    unfold seenFile
    rw [hfresh, hfe]
    simp [hstamp]
  have hlook : alookup fid (seenFile env nl st fid).uid2file
      = some ⟨fe.path, (if fe.mtime = 0 then (env.lastWrite fe.path).getD 0 else fe.mtime),
          (env.readContentF fe.path).getD "", none⟩ := by
    rw [hst1]
    exact alookup_append_of_none _ hfresh
  have hfirst : (consumeFile env nl st fid).2 = none := by
    show (match alookup fid (seenFile env nl st fid).uid2file with
          | some r => r.db | none => none) = none
    rw [hlook]
  have hsome : (alookup fid (seenFile env nl st fid).uid2file).isSome = true := by
    rw [hlook]
    rfl
  have hsecond : seenFile env nl (seenFile env nl st fid) fid = seenFile env nl st fid :=
    hidem _ hsome
  refine ⟨hfirst, ?_, ?_⟩
  · show (match alookup fid (seenFile env nl (seenFile env nl st fid) fid).uid2file with
          | some r => r.db | none => none) = none
    rw [hsecond, hlook]
  · show seenFile env nl (seenFile env nl st fid) fid = seenFile env nl st fid
    exact hsecond

/-- Concrete instantiation of the C4 staging behaviour with a cache that
declines re-indexing. -/
theorem claim_C4_staging_witness :
    (consumeFile ⟨fun _ => some ⟨"a.cc", 1⟩, fun _ => none, fun _ => none, fun _ _ _ => false⟩
      false ⟨[], []⟩ 0).2 = none :=
  ((claim_C4_staging
      ⟨fun _ => some ⟨"a.cc", 1⟩, fun _ => none, fun _ => none, fun _ _ _ => false⟩
      false ⟨[], []⟩ 0 ⟨"a.cc", 1⟩ 1 1 (by decide) (by rfl) (by rfl) (by rfl)).2.2
    (by rfl)).1

/-! ### Identity resolution lemmas -/

theorem getUsr_of_none {env : UsrEnv} {st : List (Nat × DeclInfo)} {d : Nat}
    (h : alookup (env.canon d) st = none) :
    getUsr env st d = (mkDeclInfo env (env.canon d),
      st ++ [(env.canon d, mkDeclInfo env (env.canon d))], true) := by
  unfold getUsr
  rw [h]

theorem getUsr_of_some {env : UsrEnv} {st : List (Nat × DeclInfo)} {d : Nat}
    {info : DeclInfo} (h : alookup (env.canon d) st = some info) :
    getUsr env st d = (info, st, false) := by
  unfold getUsr
  rw [h]

theorem wfCache_getUsr {env : UsrEnv} {st : List (Nat × DeclInfo)}
    (hwf : wfCache env st) (d : Nat) :
    (getUsr env st d).1 = mkDeclInfo env (env.canon d) ∧ wfCache env (getUsr env st d).2.1 := by
  cases hl : alookup (env.canon d) st with
  | none =>
    rw [getUsr_of_none hl]
    refine ⟨rfl, ?_⟩
    intro kv hkv
    rw [List.mem_append] at hkv
    rcases hkv with h1 | h1
    · exact hwf kv h1
    · rw [List.mem_singleton] at h1
      rw [h1]
  | some info =>
    rw [getUsr_of_some hl]
    exact ⟨hwf _ (alookup_mem hl), hwf⟩

/-! ### Claim C5 -/

/-- Claim C5: for any two declaration occurrences whose canonical
declaration is the same node, identity resolution returns the same symbol
key within one pass, the name-rendering happens only on the first
resolution of that canonical node, and all later lookups for that node
return the identical cached short and fully-qualified names. -/
theorem claim_C5_identity (env : UsrEnv) (st : List (Nat × DeclInfo)) (d1 d2 : Nat)
    (hwf : wfCache env st) (hc : env.canon d1 = env.canon d2) :
    (getUsr env st d1).1 = mkDeclInfo env (env.canon d1) ∧
    (getUsr env st d1).1.usr = (getUsr env st d2).1.usr ∧
    ((getUsr env (getUsr env st d1).2.1 d2).1 = (getUsr env st d1).1 ∧
      (getUsr env (getUsr env st d1).2.1 d2).2.2 = false ∧
      (getUsr env (getUsr env st d1).2.1 d2).2.1 = (getUsr env st d1).2.1) ∧
    ((getUsr env st d1).2.2 = true ↔ alookup (env.canon d1) st = none) ∧
    wfCache env (getUsr env st d1).2.1 := by
  have h1 := wfCache_getUsr hwf d1
  have h2 := wfCache_getUsr hwf d2
  have hmem : alookup (env.canon d1) (getUsr env st d1).2.1
      = some (mkDeclInfo env (env.canon d1)) := by
    cases hl : alookup (env.canon d1) st with
    | none =>
      rw [getUsr_of_none hl]
      exact alookup_append_of_none _ hl
    | some info =>
      rw [getUsr_of_some hl, hl]
      exact congrArg some (hwf _ (alookup_mem hl))
  refine ⟨h1.1, ?_, ?_, ?_, h1.2⟩
  · rw [h1.1, h2.1, hc]
  · have hl2 : alookup (env.canon d2) (getUsr env st d1).2.1
        = some (mkDeclInfo env (env.canon d1)) := by
      rw [← hc]
      exact hmem
    rw [getUsr_of_some hl2]
    exact ⟨h1.1.symm, rfl, rfl⟩
  · cases hl : alookup (env.canon d1) st with
    | none =>
      rw [getUsr_of_none hl]
      simp
    | some info =>
      rw [getUsr_of_some hl]
      simp

/-- Concrete instantiation of the C5 identity stability: two handles with
the same canonical node resolve to the same key. -/
theorem claim_C5_identity_witness :
    (getUsr ⟨fun d => d % 2, fun c => toString c, fun _ => true, fun _ => "s", fun _ => "q",
        fun s => s.length⟩ [] 3).1.usr
      = (getUsr ⟨fun d => d % 2, fun c => toString c, fun _ => true, fun _ => "s", fun _ => "q",
        fun s => s.length⟩ [] 5).1.usr :=
  (claim_C5_identity
    ⟨fun d => d % 2, fun c => toString c, fun _ => true, fun _ => "s", fun _ => "q",
      fun s => s.length⟩ [] 3 5 (by simp [wfCache]) (by rfl)).2.1

/-! ### Claim C6 -/

/-- Claim C6: the classifier is a total function of the declaration
node's syntactic facts: for every declaration node it returns a storage
kind in {Invalid, Func, Type, Var} (never File) and a fine-grained kind,
with records mapped to Class or Struct by tag, C++ methods mapped to
StaticMethod exactly when static and Method otherwise, enumerators
mapped to EnumMember, template type parameters to TypeParameter and
non-type template parameters to Parameter, and linkage-specs,
using-declarations, and the translation unit mapped to Invalid. -/
theorem claim_C6_classifier :
    (∀ (d : DeclNode) (k0 : SymbolKind),
      (getKind d k0).1 = Kind.Invalid ∨ (getKind d k0).1 = Kind.Func ∨
      (getKind d k0).1 = Kind.TypeK ∨ (getKind d k0).1 = Kind.Var) ∧
    (∀ (s : Bool) (t : TagKind) (k0 : SymbolKind),
      getKind ⟨DeclCategory.Record, s, t⟩ k0
        = (Kind.TypeK, if t = TagKind.Struct then SymbolKind.Struct else SymbolKind.Class) ∧
      getKind ⟨DeclCategory.CXXRecord, s, t⟩ k0
        = (Kind.TypeK, if t = TagKind.Struct then SymbolKind.Struct else SymbolKind.Class)) ∧
    (∀ (s : Bool) (t : TagKind) (k0 : SymbolKind),
      getKind ⟨DeclCategory.CXXMethod, s, t⟩ k0
        = (Kind.Func, if s then SymbolKind.StaticMethod else SymbolKind.Method)) ∧
    (∀ (s : Bool) (t : TagKind) (k0 : SymbolKind),
      getKind ⟨DeclCategory.EnumConstant, s, t⟩ k0 = (Kind.Var, SymbolKind.EnumMember)) ∧
    (∀ (s : Bool) (t : TagKind) (k0 : SymbolKind),
      getKind ⟨DeclCategory.TemplateTypeParm, s, t⟩ k0
        = (Kind.TypeK, SymbolKind.TypeParameter) ∧
      getKind ⟨DeclCategory.TemplateTemplateParm, s, t⟩ k0
        = (Kind.TypeK, SymbolKind.TypeParameter)) ∧
    (∀ (s : Bool) (t : TagKind) (k0 : SymbolKind),
      getKind ⟨DeclCategory.NonTypeTemplateParm, s, t⟩ k0
        = (Kind.Var, SymbolKind.Parameter)) ∧
    (∀ (s : Bool) (t : TagKind) (k0 : SymbolKind),
      (getKind ⟨DeclCategory.LinkageSpec, s, t⟩ k0).1 = Kind.Invalid ∧
      (getKind ⟨DeclCategory.Using, s, t⟩ k0).1 = Kind.Invalid ∧
      (getKind ⟨DeclCategory.TranslationUnit, s, t⟩ k0).1 = Kind.Invalid) := by
  refine ⟨?_, ?_, ?_, ?_, ?_, ?_, ?_⟩
  · intro d k0
    obtain ⟨c, s, t⟩ := d
    cases c <;> simp [getKind]
  · intro s t k0
    exact ⟨rfl, rfl⟩
  · intro s t k0
    rfl
  · intro s t k0
    rfl
  · intro s t k0
    exact ⟨rfl, rfl⟩
  · intro s t k0
    rfl
  · intro s t k0
    exact ⟨rfl, rfl, rfl⟩

/-! ### Claim C7 -/

/-- Counterexample to C7 as stated: for a macro whose definition exceeds
the configured line maximum, the hover text is not "just the macro name"
but `"#define "` followed by the name. -/
theorem claim_C7_macro_counterexample :
    (macroDefined 5 "M" ⟨⟨0, 0⟩, ⟨0, 7⟩⟩ ⟨⟨0, 0⟩, ⟨5, 1⟩⟩ "M 1\n2\n3\n4\n5\n6"
        ⟨⟨SymbolKind.Unknown, SymbolKind.Unknown, none, "", 0, ""⟩, [], []⟩).defn.hover
      = "#define M" ∧
    ¬ (macroDefined 5 "M" ⟨⟨0, 0⟩, ⟨0, 7⟩⟩ ⟨⟨0, 0⟩, ⟨5, 1⟩⟩ "M 1\n2\n3\n4\n5\n6"
        ⟨⟨SymbolKind.Unknown, SymbolKind.Unknown, none, "", 0, ""⟩, [], []⟩).defn.hover
      = "M" := by
  constructor
  · decide
  · decide

/-- Claim C7 (amended): processing a macro-definition event creates or
updates a `Var` entity keyed by the hash of the fixed prefix `@macro@`
concatenated with the macro's spelling (independent of any declaration),
sets fine kind Macro and container kind File, demotes a previously
recorded definition record (if any) to a declaration record before
installing the new definition, and — on the first definition for the
key — sets hover text to the literal `#define` source when its line
count is within the configured maximum, else to `"#define "` followed by
the macro name. -/
theorem claim_C7_macro_amended (hash : String → Nat) (maxL : Int) (name : String)
    (range extent : Range) (src : String) (v : MacroVar) :
    macroUsr hash name = hash ("@macro@" ++ name) ∧
    (macroDefined maxL name range extent src v).defn.kind = SymbolKind.MacroSym ∧
    (macroDefined maxL name range extent src v).defn.parent_kind = SymbolKind.File ∧
    (macroDefined maxL name range extent src v).defn.spell
      = some ⟨⟨range, roleDefinition, -1⟩, extent⟩ ∧
    (macroDefined maxL name range extent src v).declarations
      = v.declarations ++ (match v.defn.spell with | some s => [s] | none => []) ∧
    (macroDefined maxL name range extent src v).defn.detailed_name
      = (if v.defn.detailed_name = "" then name else v.defn.detailed_name) ∧
    (macroDefined maxL name range extent src v).defn.hover
      = (if v.defn.detailed_name = "" then
          (if (countNewlines src : Int) ≤ maxL - 1 then "#define " ++ src
           else "#define " ++ name)
         else v.defn.hover) := by
  unfold macroDefined
  cases hs : v.defn.spell <;>
    by_cases hd : v.defn.detailed_name = "" <;>
      simp [macroUsr, hs, hd]

/-! ### Claim C8 -/

/-- Claim C8: the driver's error outcomes follow the spec taxonomy: when
the engine invocation cannot be built the pass returns an empty result
collection without signalling error (ok stays true); when the engine
crashes or the engine's execute step reports failure, the pass returns
an empty result collection with ok = false; and in every case the pass
returns a normal result pair (no failure escapes it). -/
theorem claim_C8_driver (env : DriverEnv) (res : List Nat) :
    (env.invocationBuilt = false → idxIndex env res = ([], true)) ∧
    (env.invocationBuilt = true → env.hasTarget = true → env.crashes = true →
      idxIndex env res = ([], false)) ∧
    (∀ msg, env.invocationBuilt = true → env.hasTarget = true → env.crashes = false →
      env.executeErr = some msg → idxIndex env res = ([], false)) ∧
    (idxIndex env res = (res, true) ∨ idxIndex env res = ([], true) ∨
      idxIndex env res = ([], false)) := by
  refine ⟨?_, ?_, ?_, ?_⟩
  · intro h
    unfold idxIndex
    simp [h]
  · intro h1 h2 h3
    unfold idxIndex
    simp [h1, h2, h3]
  · intro msg h1 h2 h3 h4
    unfold idxIndex
    simp [h1, h2, h3, runParse, h4]
  · unfold idxIndex
    by_cases h1 : env.invocationBuilt <;> by_cases h2 : env.hasTarget <;>
      by_cases h3 : env.crashes <;> by_cases h4 : runParse env <;>
        simp [h1, h2, h3, h4]

/-- Concrete instantiation of the C8 crash outcome. -/
theorem claim_C8_driver_witness :
    idxIndex ⟨true, true, true, true, none⟩ [7] = ([], false) :=
  (claim_C8_driver ⟨true, true, true, true, none⟩ [7]).2.1 rfl rfl rfl

/-! ### Claim C9 -/

theorem applyComment_fields (en : Bool) (txt : String) (e : EntityOcc) :
    (applyComment en txt e).spell = e.spell ∧
    (applyComment en txt e).declarations = e.declarations ∧
    (applyComment en txt e).parent_kind = e.parent_kind := by
  unfold applyComment
  split_ifs <;> exact ⟨rfl, rfl, rfl⟩

/-- Claim C9: for every occurrence event carrying the Declaration role
whose node is a structured-binding (Binding) declaration, the event is
recorded as the entity's definition record (the declaration role is
promoted to a definition), not appended to the declaration list. -/
theorem claim_C9_binding_promotion (is_def0 : Bool) (u : Use) (extent : Range)
    (pk : SymbolKind) (ce : Bool) (ct : String) (e : EntityOcc) :
    adjustIsDef true is_def0 DeclCategory.Binding = true ∧
    (doDefDecl (adjustIsDef true is_def0 DeclCategory.Binding) true u extent pk ce ct e).spell
      = some ⟨u, extent⟩ ∧
    (doDefDecl (adjustIsDef true is_def0 DeclCategory.Binding) true u extent pk
        ce ct e).declarations
      = e.declarations := by
  have ha : adjustIsDef true is_def0 DeclCategory.Binding = true := by
    unfold adjustIsDef
    simp
  refine ⟨ha, ?_, ?_⟩
  · rw [ha]
    unfold doDefDecl
    rw [if_pos rfl, (applyComment_fields ce ct _).1]
  · rw [ha]
    unfold doDefDecl
    rw [if_pos rfl, (applyComment_fields ce ct _).2.1]

/-! ### Entity map lemmas -/

theorem toEnt_of_none {m : List (Nat × Ent)} {u : Nat} (h : alookup u m = none) :
    toEnt m u = (⟨u, emptyOcc⟩, m ++ [(u, ⟨u, emptyOcc⟩)]) := by
  unfold toEnt
  rw [h]

theorem toEnt_of_some {m : List (Nat × Ent)} {u : Nat} {e : Ent}
    (h : alookup u m = some e) : toEnt m u = (e, m) := by
  unfold toEnt
  rw [h]

theorem map_fst_update (l : List (Nat × Ent)) (u : Nat) (f : EntityOcc → EntityOcc) :
    (l.map (fun p => if p.1 = u then (p.1, ⟨p.2.usr, f p.2.dataE⟩) else p)).map Prod.fst
      = l.map Prod.fst := by
  induction l with
  | nil => rfl
  | cons p ps ih =>
    simp only [List.map_cons, ih]
    congr 1
    split_ifs <;> rfl

theorem wfEnts_map_update {l : List (Nat × Ent)} (h : wfEnts l) (u : Nat)
    (f : EntityOcc → EntityOcc) :
    wfEnts (l.map (fun p => if p.1 = u then (p.1, ⟨p.2.usr, f p.2.dataE⟩) else p)) := by
  obtain ⟨h1, h2⟩ := h
  constructor
  · intro kv hkv
    rw [List.mem_map] at hkv
    obtain ⟨p, hp, he⟩ := hkv
    by_cases hpu : p.1 = u
    · rw [if_pos hpu] at he
      rw [← he]
      exact h1 p hp
    · rw [if_neg hpu] at he
      rw [← he]
      exact h1 p hp
  · rw [map_fst_update]
    exact h2

theorem wfEnts_toEnt {m : List (Nat × Ent)} (h : wfEnts m) (u : Nat) :
    wfEnts (toEnt m u).2 := by
  cases hl : alookup u m with
  | some e =>
    rw [toEnt_of_some hl]
    exact h
  | none =>
    rw [toEnt_of_none hl]
    obtain ⟨h1, h2⟩ := h
    constructor
    · intro kv hkv
      rw [List.mem_append] at hkv
      rcases hkv with hk | hk
      · exact h1 kv hk
      · rw [List.mem_singleton] at hk
        rw [hk]
    · rw [List.map_append]
      rw [List.nodup_append]
      refine ⟨h2, List.nodup_singleton u, ?_⟩
      intro x hx hx2
      rw [List.map_cons, List.map_nil, List.mem_singleton] at hx2
      subst hx2
      exact alookup_eq_none hl hx

/-! ### Claim C10 -/

/-- Claim C10: each of the three entity maps stores under key `k` an
entity whose `usr` field equals `k`; lookup creates the entity on first
access with its `usr` set to the key and an empty payload (so
relationship linking may insert keys whose entity has an empty
definition record), and neither creation nor payload updates can produce
a key/usr mismatch or a duplicate key. -/
theorem claim_C10_entity_maps (m : List (Nat × Ent)) (u : Nat) (f : EntityOcc → EntityOcc)
    (hwf : wfEnts m) :
    (toEnt m u).1.usr = u ∧
    (alookup u m = none → (toEnt m u).1.dataE = emptyOcc) ∧
    wfEnts (toEnt m u).2 ∧
    alookup u (toEnt m u).2 = some (toEnt m u).1 ∧
    wfEnts (updateEnt m u f) ∧
    (updateEnt m u f).map Prod.fst = ((toEnt m u).2).map Prod.fst := by
  refine ⟨?_, ?_, wfEnts_toEnt hwf u, ?_, ?_, ?_⟩
  · cases hl : alookup u m with
    | none =>
      rw [toEnt_of_none hl]
    | some e =>
      rw [toEnt_of_some hl]
      exact hwf.1 _ (alookup_mem hl)
  · intro hl
    rw [toEnt_of_none hl]
  · cases hl : alookup u m with
    | none =>
      rw [toEnt_of_none hl]
      exact alookup_append_of_none _ hl
    | some e =>
      rw [toEnt_of_some hl]
      exact hl
  · unfold updateEnt
    exact wfEnts_map_update (wfEnts_toEnt hwf u) u f
  · unfold updateEnt
    exact map_fst_update _ u f

/-- Concrete instantiation of the C10 invariant: first access creates the
entity with its `usr` equal to the key. -/
theorem claim_C10_entity_maps_witness : (toEnt [] 7).1.usr = 7 :=
  (claim_C10_entity_maps [] 7 id (by exact ⟨by simp, by simp⟩)).1

end Ccls
